import Mathlib

/-!
Verification of the wifi-nina driver core: the parameter codec
(src/param.rs), the framed SPI command engine (src/transport/spi.rs),
and the buffered TCP socket (src/lib.rs).

Machine integers are modelled as `Nat`; a byte on the wire is a `Nat`
that the well-formedness predicates bound by 256 where that matters.
Fallible operations (Rust assertion failures, exhausted streams) are
modelled with `Option`.
-/

namespace WifiNina

/-- Endianness marker mirroring the `byteorder` type parameter `O` of
`Scalar<O, A>` in src/param.rs. -/
inductive Endianness where
  | be
  | le
deriving DecidableEq, Repr

/-- The parameter kinds of src/param.rs: `u8`, `Scalar<O, u16>`,
`Scalar<O, u32>`, raw byte runs (`[u8]` / `ArrayVec<u8, CAP>`), and the
`NullTerminated` wrapper. The payload of each constructor is the carried
value. -/
inductive Param where
  | u8 (v : Nat)
  | u16 (e : Endianness) (v : Nat)
  | u32 (e : Endianness) (v : Nat)
  | bytes (v : List Nat)
  | nullTerminated (p : Param)
deriving DecidableEq, Repr

/-- Byte extraction for a 16-bit scalar, as `byteorder::write_u16`:
big-endian emits the high byte first, little-endian the low byte first. -/
def writeU16 (e : Endianness) (v : Nat) : List Nat :=
  match e with
  | .be => [v / 256 % 256, v % 256]
  | .le => [v % 256, v / 256 % 256]

/-- Byte extraction for a 32-bit scalar, as `byteorder::write_u32`. -/
def writeU32 (e : Endianness) (v : Nat) : List Nat :=
  match e with
  | .be => [v / 16777216 % 256, v / 65536 % 256, v / 256 % 256, v % 256]
  | .le => [v % 256, v / 256 % 256, v / 65536 % 256, v / 16777216 % 256]

/-- Reassemble a 16-bit scalar from two bytes, as `byteorder::read_u16`. -/
def readU16 (e : Endianness) (b0 b1 : Nat) : Nat :=
  match e with
  | .be => b0 * 256 + b1
  | .le => b1 * 256 + b0

/-- Reassemble a 32-bit scalar from four bytes, as `byteorder::read_u32`. -/
def readU32 (e : Endianness) (b0 b1 b2 b3 : Nat) : Nat :=
  match e with
  | .be => b0 * 16777216 + b1 * 65536 + b2 * 256 + b3
  | .le => b3 * 16777216 + b2 * 65536 + b1 * 256 + b0

/-- `SerializeParam::len` from src/param.rs: the declared byte length of a
parameter. `u8` is 1, 16-bit scalars are 2, 32-bit scalars are 4, a byte
run is its own length, and `NullTerminated` adds one for the trailing
zero. -/
def Param.len : Param → Nat
  | .u8 _ => 1
  | .u16 _ _ => 2
  | .u32 _ _ => 4
  | .bytes v => v.length
  | .nullTerminated p => p.len + 1

/-- `SerializeParam::serialize` from src/param.rs, flattened to the list of
bytes pushed into the `Transporter`. -/
def Param.serialize : Param → List Nat
  | .u8 v => [v]
  | .u16 e v => writeU16 e v
  | .u32 e v => writeU32 e v
  | .bytes v => v
  | .nullTerminated p => p.serialize ++ [0]

/-- `ParseParam::parse` from src/param.rs. The first argument plays the
role of Rust's `&mut self` destination: it fixes the shape to parse and,
for `bytes`, supplies the pre-existing container contents (the `ArrayVec`
impl extends the container with zeroes up to `len` and then overwrites its
first `len` slots). Rust assertion failures (`assert_eq!(1, len)`, the
trailing-zero check, the `usize` underflow of `len - 1` on an empty slot)
and exhausted streams are `none`. Returns the parsed value and the
unconsumed remainder of the stream. -/
def Param.parse : Param → List Nat → Nat → Option (Param × List Nat)
  | .u8 _, s, len =>
    if len = 1 then
      match s with
      | b :: rest => some (.u8 b, rest)
      | [] => none
    else none
  | .u16 e _, s, len =>
    if len = 2 then
      match s with
      | b0 :: b1 :: rest => some (.u16 e (readU16 e b0 b1), rest)
      | _ => none
    else none
  | .u32 e _, s, len =>
    if len = 4 then
      match s with
      | b0 :: b1 :: b2 :: b3 :: rest => some (.u32 e (readU32 e b0 b1 b2 b3), rest)
      | _ => none
    else none
  | .bytes v, s, len =>
    if len ≤ s.length then
      let grown := if v.length < len then v ++ List.replicate (len - v.length) 0 else v
      some (.bytes (s.take len ++ grown.drop len), s.drop len)
    else none
  | .nullTerminated p, s, len =>
    if len = 0 then none
    else
      match p.parse s (len - 1) with
      | some (inner, rest) =>
        match rest with
        | 0 :: rest2 => some (.nullTerminated inner, rest2)
        | _ => none
      | none => none

/-- Well-formedness of a parameter value: every carried machine integer
fits its Rust type (`u8`, `u16`, `u32`, and byte-run elements are bytes). -/
def Param.wf : Param → Prop
  | .u8 v => v < 256
  | .u16 _ v => v < 65536
  | .u32 _ v => v < 4294967296
  | .bytes v => ∀ b ∈ v, b < 256
  | .nullTerminated p => p.wf

/-- Decision procedure for `Param.wf`. -/
def Param.wfDec : (p : Param) → Decidable p.wf
  | .u8 v => inferInstanceAs (Decidable (v < 256))
  | .u16 _ v => inferInstanceAs (Decidable (v < 65536))
  | .u32 _ v => inferInstanceAs (Decidable (v < 4294967296))
  | .bytes v => inferInstanceAs (Decidable (∀ b ∈ v, b < 256))
  | .nullTerminated p => p.wfDec

instance : DecidablePred Param.wf := Param.wfDec

/-- The same-shaped default destination used when parsing: Rust parses
into a `Default::default()` value of the target type (fresh `ArrayVec`,
zero scalars). -/
def Param.reset : Param → Param
  | .u8 _ => .u8 0
  | .u16 e _ => .u16 e 0
  | .u32 e _ => .u32 e 0
  | .bytes _ => .bytes []
  | .nullTerminated p => .nullTerminated p.reset

/-- The serializer emits exactly `len` bytes, for every parameter kind. -/
theorem Param.len_eq_serialize_length (p : Param) : p.len = p.serialize.length := by
  induction p with
  | u8 v => rfl
  | u16 e v => cases e <;> rfl
  | u32 e v => cases e <;> rfl
  | bytes v => rfl
  | nullTerminated p ih =>
    simp [Param.len, Param.serialize, ih]

/-- Serialize-then-parse over a fresh destination recovers the value, for
every parameter kind, with any trailing stream content untouched. -/
theorem Param.parse_serialize (p : Param) (extra : List Nat) (hwf : p.wf) :
    p.reset.parse (p.serialize ++ extra) p.len = some (p, extra) := by
  induction p generalizing extra with
  | u8 v => simp [Param.reset, Param.serialize, Param.len, Param.parse]
  | u16 e v =>
    have hv : v < 65536 := hwf
    cases e <;>
      simp only [Param.reset, Param.serialize, Param.len, Param.parse, writeU16, readU16,
        List.cons_append, List.nil_append, if_pos rfl, Option.some.injEq, Prod.mk.injEq,
        Param.u16.injEq, and_true, true_and, reduceIte] <;>
      omega
  | u32 e v =>
    have hv : v < 4294967296 := hwf
    cases e <;>
      simp only [Param.reset, Param.serialize, Param.len, Param.parse, writeU32, readU32,
        List.cons_append, List.nil_append, if_pos rfl, Option.some.injEq, Prod.mk.injEq,
        Param.u32.injEq, and_true, true_and, reduceIte] <;>
      omega
  | bytes v =>
    have hle : v.length ≤ (v ++ extra).length := by simp
    simp only [Param.reset, Param.serialize, Param.len, Param.parse, if_pos hle,
      List.take_left, List.drop_left, Option.some.injEq, Prod.mk.injEq, Param.bytes.injEq]
    refine ⟨?_, trivial⟩
    by_cases h0 : (List.nil (α := Nat)).length < v.length
    · simp only [if_pos h0, List.nil_append]
      rw [List.drop_eq_nil_of_le (by simp), List.append_nil]
    · simp only [if_neg h0, List.drop_nil, List.append_nil]
  | nullTerminated p ih =>
    have hinner := ih (0 :: extra) hwf
    simp only [Param.reset, Param.serialize, Param.len, Param.parse,
      Nat.add_sub_cancel, List.append_assoc, List.cons_append, List.nil_append]
    simp only [List.append_assoc, List.cons_append, List.nil_append] at hinner
    simp [hinner]

/-- C3: for every parameter kind and every well-formed value of that kind,
serializing into a fresh stream and parsing the result back into a fresh
destination with the number of bytes written as the length reproduces the
value (with any trailing stream bytes untouched), and the declared byte
length `len` equals the number of bytes the serializer writes. -/
theorem param_roundtrip (p : Param) (extra : List Nat) (hwf : p.wf) :
    p.reset.parse (p.serialize ++ extra) p.len = some (p, extra) ∧
    p.len = p.serialize.length :=
  ⟨Param.parse_serialize p extra hwf, Param.len_eq_serialize_length p⟩

/-- Concrete witness for `param_roundtrip`: the null-terminated byte run
`"hi"` with one trailing stream byte. -/
theorem param_roundtrip_witness :
    (Param.nullTerminated (Param.bytes [104, 105])).wf ∧
    ((Param.nullTerminated (Param.bytes [104, 105])).reset.parse
        ((Param.nullTerminated (Param.bytes [104, 105])).serialize ++ [7])
        (Param.nullTerminated (Param.bytes [104, 105])).len =
      some (Param.nullTerminated (Param.bytes [104, 105]), [7]) ∧
     (Param.nullTerminated (Param.bytes [104, 105])).len =
      (Param.nullTerminated (Param.bytes [104, 105])).serialize.length) :=
  ⟨by decide, param_roundtrip (Param.nullTerminated (Param.bytes [104, 105])) [7] (by decide)⟩

/-- State of `BufTransporter` from src/transport/spi.rs during the write
phase: `sent` is the concatenation of all bytes already transferred over
the SPI bus, and `buf` holds the `cursor` not-yet-transferred buffered
bytes (the cursor is `buf.length`; the array cells past the cursor never
reach the wire). -/
structure BufTransporter where
  sent : List Nat
  buf : List Nat
deriving DecidableEq, Repr

/-- The padding loop at the head of `BufTransporter::flush`: append `0xFF`
bytes until the cursor is a multiple of 4. -/
def padFF (l : List Nat) : List Nat :=
  l ++ List.replicate ((4 - l.length % 4) % 4) 0xFF

/-- `BufTransporter::flush`: pad the buffer to a multiple of four with
`0xFF`, transfer `buffer[0..cursor]` over the bus, and clear the cursor. -/
def BufTransporter.flush (st : BufTransporter) : BufTransporter :=
  ⟨st.sent ++ padFF st.buf, []⟩

/-- `BufTransporter::write`: if the cursor has reached the buffer capacity,
flush first; then store the byte and advance the cursor. -/
def BufTransporter.write (cap : Nat) (st : BufTransporter) (b : Nat) : BufTransporter :=
  if cap ≤ st.buf.length then ⟨st.flush.sent, [b]⟩ else ⟨st.sent, st.buf ++ [b]⟩

/-- `Transporter::write_from`: write each byte of a slice in order. -/
def BufTransporter.writeFrom (cap : Nat) (st : BufTransporter) (bs : List Nat) : BufTransporter :=
  bs.foldl (BufTransporter.write cap) st

/-- The send phase of `SpiTransport::handle_cmd` (src/transport/spi.rs
lines 161-173), with the serialized parameter block abstracted as the byte
list `pb` that `send_params.serialize` pushes into the transporter: open a
transaction with a fresh 8-byte `BufTransporter`, write `START_CMD`
(`0xE0`), write `opcode & !REPLY_FLAG`, write the parameter bytes, write
`END_CMD` (`0xEE`), and flush. The result is every byte that crossed the
SPI bus, in order. -/
def handleCmdSend (opcode : Nat) (pb : List Nat) : List Nat :=
  let t0 : BufTransporter := ⟨[], []⟩
  let t1 := t0.write 8 0xE0
  let t2 := t1.write 8 (opcode &&& 0x7F)
  let t3 := t2.writeFrom 8 pb
  let t4 := t3.write 8 0xEE
  t4.flush.sent

/-- Invariant of the buffered writer: the cursor stays within capacity and
every SPI burst so far had length a multiple of 4. -/
def BufTransporter.Inv (cap : Nat) (st : BufTransporter) : Prop :=
  st.buf.length ≤ cap ∧ st.sent.length % 4 = 0

/-- Padding a buffer whose length is already a multiple of 4 is a no-op. -/
theorem padFF_of_dvd (l : List Nat) (h : l.length % 4 = 0) : padFF l = l := by
  simp [padFF, h]

/-- Padded bursts always have length a multiple of 4. -/
theorem padFF_length (l : List Nat) : (padFF l).length % 4 = 0 := by
  simp only [padFF, List.length_append, List.length_replicate]
  omega

/-- One buffered write preserves the invariant and appends the byte to the
abstract stream `sent ++ buf`, provided the capacity is a positive
multiple of 4 (the send phase uses capacity 8). -/
theorem BufTransporter.write_spec (cap : Nat) (st : BufTransporter) (b : Nat)
    (hcap : cap % 4 = 0) (hpos : 0 < cap) (hinv : st.Inv cap) :
    (st.write cap b).Inv cap ∧
      (st.write cap b).sent ++ (st.write cap b).buf = st.sent ++ st.buf ++ [b] := by
  obtain ⟨hle, hsent⟩ := hinv
  unfold BufTransporter.write
  by_cases h : cap ≤ st.buf.length
  · have hbuf : st.buf.length = cap := Nat.le_antisymm hle h
    have hmod : st.buf.length % 4 = 0 := by omega
    simp only [if_pos h, BufTransporter.flush, padFF_of_dvd st.buf hmod]
    refine ⟨⟨by simpa using hpos, ?_⟩, by simp⟩
    simp only [List.length_append]
    omega
  · simp only [if_neg h, BufTransporter.Inv, List.length_append, List.length_cons,
      List.length_nil, List.append_assoc]
    exact ⟨⟨by omega, hsent⟩, trivial⟩

/-- Writing a byte list preserves the invariant and appends the list to
the abstract stream. -/
theorem BufTransporter.writeFrom_spec (cap : Nat) (bs : List Nat) (st : BufTransporter)
    (hcap : cap % 4 = 0) (hpos : 0 < cap) (hinv : st.Inv cap) :
    (st.writeFrom cap bs).Inv cap ∧
      (st.writeFrom cap bs).sent ++ (st.writeFrom cap bs).buf = st.sent ++ st.buf ++ bs := by
  induction bs generalizing st with
  | nil => simpa [BufTransporter.writeFrom] using hinv
  | cons b rest ih =>
    obtain ⟨hinv1, happ1⟩ := BufTransporter.write_spec cap st b hcap hpos hinv
    obtain ⟨hinv2, happ2⟩ := ih (st.write cap b) hinv1
    refine ⟨hinv2, ?_⟩
    simp only [BufTransporter.writeFrom, List.foldl_cons] at happ2 ⊢
    rw [happ2, happ1]
    simp

/-- Helper naming the final transporter state of the send phase. -/
def sendFinalState (opcode : Nat) (pb : List Nat) : BufTransporter :=
  BufTransporter.write 8
    (BufTransporter.writeFrom 8
      (BufTransporter.write 8 (BufTransporter.write 8 ⟨[], []⟩ 0xE0) (opcode &&& 0x7F)) pb)
    0xEE

/-- The send phase is the flush of the final transporter state. -/
theorem handleCmdSend_eq (opcode : Nat) (pb : List Nat) :
    handleCmdSend opcode pb = (sendFinalState opcode pb).flush.sent := rfl

/-- The final send state satisfies the writer invariant and its abstract
stream is exactly the unpadded frame. -/
theorem sendFinalState_spec (opcode : Nat) (pb : List Nat) :
    (sendFinalState opcode pb).Inv 8 ∧
      (sendFinalState opcode pb).sent ++ (sendFinalState opcode pb).buf =
        0xE0 :: (opcode &&& 0x7F) :: (pb ++ [0xEE]) := by
  have hinv0 : BufTransporter.Inv 8 ⟨[], []⟩ := by constructor <;> simp
  have s1 := BufTransporter.write_spec 8 ⟨[], []⟩ 0xE0 rfl (by norm_num) hinv0
  have s2 := BufTransporter.write_spec 8 _ (opcode &&& 0x7F) rfl (by norm_num) s1.1
  have s3 := BufTransporter.writeFrom_spec 8 pb _ rfl (by norm_num) s2.1
  have s4 := BufTransporter.write_spec 8 _ 0xEE rfl (by norm_num) s3.1
  refine ⟨s4.1, ?_⟩
  show (sendFinalState opcode pb).sent ++ (sendFinalState opcode pb).buf = _
  rw [sendFinalState, s4.2, s3.2, s2.2, s1.2]
  simp

/-- C1: for every command opcode and every serialized parameter block, the
outbound byte sequence produced by the send phase of `handle_cmd` starts
with `0xE0`, has `opcode & 0x7F` at index 1, then the parameter block
bytes, ends with `0xEE` followed by exactly the `0xFF` padding bytes that
bring the frame to a multiple of 4, and has total length a multiple of 4. -/
theorem handleCmdSend_framing (opcode : Nat) (pb : List Nat) :
    handleCmdSend opcode pb =
      0xE0 :: (opcode &&& 0x7F) ::
        (pb ++ 0xEE :: List.replicate ((4 - (pb.length + 3) % 4) % 4) 0xFF) ∧
    (handleCmdSend opcode pb).length % 4 = 0 := by
  obtain ⟨⟨hle, hsent⟩, hmsg⟩ := sendFinalState_spec opcode pb
  have hlen : (sendFinalState opcode pb).sent.length + (sendFinalState opcode pb).buf.length
      = pb.length + 3 := by
    have := congrArg List.length hmsg
    simpa using this
  have hbufmod : (sendFinalState opcode pb).buf.length % 4 = (pb.length + 3) % 4 := by omega
  have key : handleCmdSend opcode pb =
      ((sendFinalState opcode pb).sent ++ (sendFinalState opcode pb).buf)
        ++ List.replicate ((4 - (pb.length + 3) % 4) % 4) 0xFF := by
    rw [handleCmdSend_eq, BufTransporter.flush, padFF, hbufmod]
    simp
  constructor
  · rw [key, hmsg]
    simp
  · rw [key]
    simp only [List.length_append, List.length_replicate, hlen]
    omega

/-- The protocol-level variants of `SpiError` from src/transport/spi.rs
(the peripheral-error variants carry opaque hardware errors and cannot
arise in this model). -/
inductive SpiError where
  | errorResponse
  | unexpectedReplyByte (b : Nat) (pos : Nat)
deriving DecidableEq, Repr

/-- The receive phase of `SpiTransport::handle_cmd` (src/transport/spi.rs
lines 177-206). The reply bytes delivered by the transporter are the list
`s`; the generic `recv_params.parse` call is abstracted as `P`, which
consumes bytes from the stream and returns the unconsumed remainder (or
`none` on a parse failure). The phase reads two bytes, checks them against
`ERR_CMD`, `START_CMD` and `opcode | REPLY_FLAG`, parses the receive
parameters, and checks the final byte against `END_CMD`. `none` means the
stream ran out or the parameter parse failed, which the hardware surfaces
as a bus or panic condition rather than a protocol error. -/
def handleCmdRecv (opcode : Nat) (P : List Nat → Option (List Nat)) (s : List Nat) :
    Option (Except SpiError Unit) :=
  match s with
  | b0 :: b1 :: rest =>
    if b0 = 0xEF then some (Except.error SpiError.errorResponse)
    else if b0 ≠ 0xE0 then some (Except.error (SpiError.unexpectedReplyByte b0 0))
    else if b1 ≠ (opcode ||| 0x80) then
      some (Except.error (SpiError.unexpectedReplyByte b1 1))
    else
      match P rest with
      | some (last :: _) =>
        if last = 0xEE then some (Except.ok ())
        else some (Except.error (SpiError.unexpectedReplyByte last 2))
      | some [] => none
      | none => none
  | _ => none

/-- C2: the receive phase fails with `ErrorResponse` when the first byte
is `0xEF`, with `UnexpectedReplyByte(byte, 0)` when the first byte is any
other value different from `0xE0`, with `UnexpectedReplyByte(byte, 1)`
when the byte after `0xE0` differs from `opcode | 0x80`, with
`UnexpectedReplyByte(byte, 2)` when the byte after the receive parameters
differs from `0xEE`, and succeeds otherwise. -/
theorem handleCmdRecv_cases (opcode b0 b1 : Nat) (rest : List Nat)
    (P : List Nat → Option (List Nat)) :
    (b0 = 0xEF → handleCmdRecv opcode P (b0 :: b1 :: rest) =
        some (Except.error SpiError.errorResponse)) ∧
    (b0 ≠ 0xEF → b0 ≠ 0xE0 → handleCmdRecv opcode P (b0 :: b1 :: rest) =
        some (Except.error (SpiError.unexpectedReplyByte b0 0))) ∧
    (b1 ≠ (opcode ||| 0x80) → handleCmdRecv opcode P (0xE0 :: b1 :: rest) =
        some (Except.error (SpiError.unexpectedReplyByte b1 1))) ∧
    (∀ last tail, P rest = some (last :: tail) → last ≠ 0xEE →
        handleCmdRecv opcode P (0xE0 :: (opcode ||| 0x80) :: rest) =
          some (Except.error (SpiError.unexpectedReplyByte last 2))) ∧
    (∀ tail, P rest = some (0xEE :: tail) →
        handleCmdRecv opcode P (0xE0 :: (opcode ||| 0x80) :: rest) =
          some (Except.ok ())) := by
  refine ⟨?_, ?_, ?_, ?_, ?_⟩
  · intro h
    simp [handleCmdRecv, h]
  · intro h1 h2
    simp [handleCmdRecv, h1, h2]
  · intro h
    simp [handleCmdRecv, h]
  · intro last tail hP hlast
    simp [handleCmdRecv, hP, hlast]
  · intro tail hP
    simp [handleCmdRecv, hP]

/-- Concrete witness for `handleCmdRecv_cases` at opcode `0x37`
(`GetFwVersionCmd`), whose reply echo is `0xB7`, with the identity
parameter parser. -/
theorem handleCmdRecv_cases_witness :
    handleCmdRecv 0x37 some [0xEF, 0, 1] = some (Except.error SpiError.errorResponse) ∧
    handleCmdRecv 0x37 some [0x12, 0, 1] =
      some (Except.error (SpiError.unexpectedReplyByte 0x12 0)) ∧
    handleCmdRecv 0x37 some [0xE0, 0x55, 1] =
      some (Except.error (SpiError.unexpectedReplyByte 0x55 1)) ∧
    handleCmdRecv 0x37 some [0xE0, 0xB7, 0x99] =
      some (Except.error (SpiError.unexpectedReplyByte 0x99 2)) ∧
    handleCmdRecv 0x37 some [0xE0, 0xB7, 0xEE] = some (Except.ok ()) :=
  ⟨(handleCmdRecv_cases 0x37 0xEF 0 [1] some).1 rfl,
   (handleCmdRecv_cases 0x37 0x12 0 [1] some).2.1 (by decide) (by decide),
   (handleCmdRecv_cases 0x37 0xE0 0x55 [1] some).2.2.1 (by decide),
   (handleCmdRecv_cases 0x37 0xE0 0xB7 [0x99] some).2.2.2.1 0x99 [] rfl (by decide),
   (handleCmdRecv_cases 0x37 0xE0 0xB7 [0xEE] some).2.2.2.2 [] rfl⟩

/-- The drain loop of `Socket::flush` (src/lib.rs lines 275-301): while
`flush_cursor < cursor`, send one chunk via `send_data` and advance
`flush_cursor` by the byte count the device reports. The device-reported
counts are the oracle list `sents`; an exhausted oracle (or an error from
`send_data` / `check_data_sent`, which aborts `flush` before the cursor
reset) is `none`. -/
def flushDrain (cursor flushCursor : Nat) : List Nat → Option Unit
  | [] => if flushCursor < cursor then none else some ()
  | s :: rest =>
    if flushCursor < cursor then flushDrain cursor (flushCursor + s) rest
    else some ()

/-- `Socket::flush` effect on the write cursor: run the drain loop from
`flush_cursor = 0`; on a full drain set the cursor to 0. -/
def Socket.flush (cursor : Nat) (sents : List Nat) : Option Nat :=
  match flushDrain cursor 0 sents with
  | some _ => some 0
  | none => none

/-- `Socket::write` effect on the write cursor (src/lib.rs lines 248-273):
`fill_buffer` copies `min(capacity - cursor, remaining)` bytes and
advances the cursor; while bytes remain, flush (each interior flush
consuming one oracle entry) and fill again. -/
def Socket.writeLoop (cap : Nat) : Nat → Nat → List (List Nat) → Option Nat
  | cursor, n, [] =>
    if n ≤ min (cap - cursor) n then some (cursor + min (cap - cursor) n) else none
  | cursor, n, sents :: more =>
    if n ≤ min (cap - cursor) n then some (cursor + min (cap - cursor) n)
    else
      match Socket.flush (cursor + min (cap - cursor) n) sents with
      | some c0 => Socket.writeLoop cap c0 (n - min (cap - cursor) n) more
      | none => none

/-- One operation on the buffered socket: a write of `n` bytes (with the
device-response oracle for its interior flushes) or an explicit flush. -/
inductive SocketOp where
  | write (n : Nat) (oracle : List (List Nat))
  | flush (sents : List Nat)

/-- Run one socket operation on the write cursor. -/
def Socket.runOp (cap cursor : Nat) : SocketOp → Option Nat
  | .write n oracle => Socket.writeLoop cap cursor n oracle
  | .flush sents => Socket.flush cursor sents

/-- Run a sequence of socket operations on the write cursor, stopping at
the first failed operation. -/
def Socket.runOps (cap cursor : Nat) : List SocketOp → Option Nat
  | [] => some cursor
  | op :: ops =>
    match Socket.runOp cap cursor op with
    | some c2 => Socket.runOps cap c2 ops
    | none => none

/-- A completed flush always leaves the cursor at 0. -/
theorem Socket.flush_eq_zero (cursor : Nat) (sents : List Nat) (r : Nat)
    (h : Socket.flush cursor sents = some r) : r = 0 := by
  unfold Socket.flush at h
  cases hd : flushDrain cursor 0 sents with
  | none => rw [hd] at h; exact absurd h (by simp)
  | some u => rw [hd] at h; simpa using h.symm

/-- A completed write keeps the cursor within capacity. -/
theorem Socket.writeLoop_le (cap : Nat) (oracle : List (List Nat)) (cursor n c : Nat)
    (hc : cursor ≤ cap) (h : Socket.writeLoop cap cursor n oracle = some c) : c ≤ cap := by
  induction oracle generalizing cursor n with
  | nil =>
    unfold Socket.writeLoop at h
    by_cases hw : n ≤ min (cap - cursor) n
    · rw [if_pos hw] at h
      have heq : c = cursor + min (cap - cursor) n := by simpa using h.symm
      omega
    · rw [if_neg hw] at h
      exact absurd h (by simp)
  | cons sents more ih =>
    unfold Socket.writeLoop at h
    by_cases hw : n ≤ min (cap - cursor) n
    · rw [if_pos hw] at h
      have hcc : cursor + min (cap - cursor) n ≤ cap := by omega
      have : c = cursor + min (cap - cursor) n := by simpa using h.symm
      omega
    · rw [if_neg hw] at h
      cases hf : Socket.flush (cursor + min (cap - cursor) n) sents with
      | none => rw [hf] at h; exact absurd h (by simp)
      | some c0 =>
        rw [hf] at h
        have hc0 : c0 = 0 := Socket.flush_eq_zero _ sents c0 hf
        exact ih c0 (n - min (cap - cursor) n) (by omega) h

/-- One socket operation preserves the cursor bound. -/
theorem Socket.runOp_le (cap cursor c : Nat) (op : SocketOp)
    (hc : cursor ≤ cap) (h : Socket.runOp cap cursor op = some c) : c ≤ cap := by
  cases op with
  | write n oracle => exact Socket.writeLoop_le cap oracle cursor n c hc h
  | flush sents =>
    have := Socket.flush_eq_zero cursor sents c h
    omega

/-- C4: along every completed sequence of write and flush operations on
the buffered TCP socket, the write cursor never exceeds the fixed buffer
capacity, and a completed flush always resets the cursor to 0. -/
theorem socket_write_cursor_invariant (cap cursor c : Nat) (ops : List SocketOp)
    (hc : cursor ≤ cap) (hrun : Socket.runOps cap cursor ops = some c) :
    c ≤ cap ∧
      (∀ cur sents r, Socket.runOp cap cur (SocketOp.flush sents) = some r → r = 0) := by
  refine ⟨?_, fun cur sents r h => Socket.flush_eq_zero cur sents r h⟩
  induction ops generalizing cursor with
  | nil =>
    unfold Socket.runOps at hrun
    have : c = cursor := by simpa using hrun.symm
    omega
  | cons op ops ih =>
    unfold Socket.runOps at hrun
    cases ho : Socket.runOp cap cursor op with
    | none => rw [ho] at hrun; exact absurd hrun (by simp)
    | some c2 =>
      rw [ho] at hrun
      exact ih c2 (Socket.runOp_le cap cursor c2 op hc ho) hrun

/-- Concrete witness for `socket_write_cursor_invariant`: capacity 4096
(the reference value), a write of 5000 bytes whose interior flush drains
4096 bytes, then an explicit flush draining the remaining 904. -/
theorem socket_write_cursor_invariant_witness :
    ((0 : Nat) ≤ 4096 ∧
      Socket.runOps 4096 0 [SocketOp.write 5000 [[4096]], SocketOp.flush [904]] = some 0) ∧
    ((0 : Nat) ≤ 4096 ∧
      ∀ cur sents r, Socket.runOp 4096 cur (SocketOp.flush sents) = some r → r = 0) :=
  ⟨⟨by decide, by decide⟩,
   socket_write_cursor_invariant 4096 0 0 [SocketOp.write 5000 [[4096]], SocketOp.flush [904]]
     (by decide) (by decide)⟩

end WifiNina
